import Mathlib

/-!
Verification of the structured logging/masking core of the
`restful_api_user_product_order` repository (shared `logger` package of the
user/product/order services).

Embedded sources:
  * `product-service/pkg/logger/masking.go` (masking engine),
  * `product-service/pkg/logger/log-service.go` (`customLoggerService`:
    `SetSummary`, `toStr`, `Info`, `End`, `expandResultCode`, `cloneAndMask`,
    `setNestedProperty`, `SetNestedArrayProperty`, `GetObjectByStringKeys`,
    `toJSON`),
  * `order-service/pkg/kp/ctx.go` (`summaryLogService.Flush`,
    `clearNonSummaryLogParam`),
  * `order-service/pkg/logger/log-dto.go` (`LogDto`, `Metadata`, `Sequence`,
    `SequenceResult`, `EventSummary`).

Modelling conventions:
  * Go strings are modelled as Lean `String`s (sequences of characters).  Go
    indexes bytes while `[]rune` decodes UTF-8; the two coincide on the ASCII
    data used by every concrete input of this development.
  * Go `json.Marshal` is modelled by a rendering function over a JSON value
    tree (`JVal`); `json.MarshalIndent(v, "", "  ")` by an indented renderer.
    Struct fields are rendered in declaration order with the repository's
    `omitempty` tags honoured; `metadata`'s `omitzero` tag is modelled as
    "omit when all fields are zero" (Go >= 1.24 semantics).  Go sorts the keys
    of `map[string]any` when marshalling; the model keeps insertion order, and
    every concrete payload in this file already lists its keys in sorted
    order, so the two agree on all inputs evaluated here.
  * Mutable Go maps/slices are modelled by an explicit store (`Store`) of
    cells addressed by `Nat`, with scalars held inline (`HVal`), which mirrors
    Go's reference semantics for `map[string]any` and `[]any`.
  * HMAC-MD5 (`crypto/hmac` + `crypto/md5`, external library collaborators)
    is not modelled: `Masking` takes the hash function as an explicit
    parameter `hmacValue`, and every theorem holds for an arbitrary such
    function (no claim depends on hash output).
-/

namespace UserProductOrder

/-! ## Masking engine (`masking.go`) -/

/-- `MaskingService.maskingDisplayCharacter`, set to `"X"` by
`NewMaskingService`. -/
def maskingDisplayCharacter : String := "X"

/-- The `MaskingType` enumeration, in the order of the Go `const` block. -/
inductive MaskingType where
  | Msisdn
  | Fbb
  | CreditCard
  | IDCard
  | BankAccount
  | Firstname
  | Lastname
  | Email
  | Full
  | Hashing
deriving DecidableEq

/-- Go `strings.Repeat s n`. -/
def strRepeat (s : String) (n : Nat) : String :=
  String.mk (List.replicate n s.data).flatten

/-- The alphanumeric test used inside `censorEmail` (the Go condition on
`masked[i]`, literally). -/
def isMaskedAlnum (c : Char) : Bool :=
  (('a' ≤ c && c ≤ 'z') || ('A' ≤ c && c ≤ 'Z') || ('0' ≤ c && c ≤ '9'))

/-- `MaskingService.censorEmail`: keep the first 3 characters, replace every
later alphanumeric character by the mask character, keep the rest. -/
def censorEmail (email : String) : String :=
  if email.length < 3 then email
  else
    let firstThree := String.mk (email.data.take 3)
    let maskedTail := (email.data.drop 3).map fun c =>
      if isMaskedAlnum c then maskingDisplayCharacter.data.headD 'X' else c
    firstThree ++ String.mk maskedTail

/-- `MaskingService.censorBankAccountNumber`. -/
def censorBankAccountNumber (accountNumber : String) : String :=
  let length := accountNumber.length
  if length ≤ 7 then accountNumber
  else
    let firstFour := String.mk (accountNumber.data.take 4)
    let lastThree := String.mk (accountNumber.data.drop (length - 3))
    let middle := strRepeat maskingDisplayCharacter (length - 7)
    firstFour ++ middle ++ lastThree

/-- `MaskingService.censorCreditCardId`. -/
def censorCreditCardId (creditCardId : String) : String :=
  let length := creditCardId.length
  if length < 11 then creditCardId
  else
    let firstSix := String.mk (creditCardId.data.take 6)
    let lastFour := String.mk (creditCardId.data.drop (length - 4))
    let middle := strRepeat maskingDisplayCharacter (length - 10)
    firstSix ++ middle ++ lastFour

/-- `MaskingService.censorPhoneNumber`. -/
def censorPhoneNumber (phoneNumber : String) : String :=
  let length := phoneNumber.length
  if length < 7 then phoneNumber
  else
    let firstThree := String.mk (phoneNumber.data.take 3)
    let lastFour := String.mk (phoneNumber.data.drop (length - 4))
    let middle := strRepeat maskingDisplayCharacter (length - 7)
    firstThree ++ middle ++ lastFour

/-- `MaskingService.censorFbbNumber`. -/
def censorFbbNumber (fiberNumber : String) : String :=
  let length := fiberNumber.length
  if length < 6 then fiberNumber
  else
    let firstTwo := String.mk (fiberNumber.data.take 2)
    let lastFour := String.mk (fiberNumber.data.drop (length - 4))
    let middle := strRepeat maskingDisplayCharacter (length - 6)
    firstTwo ++ middle ++ lastFour

/-- `MaskingService.censorIDCard`. -/
def censorIDCard (idCard : String) : String :=
  let length := idCard.length
  if length < 4 then idCard
  else
    let lastFour := String.mk (idCard.data.drop (length - 4))
    let masked := strRepeat maskingDisplayCharacter (length - 4)
    masked ++ lastFour

/-- `MaskingService.censorExcludeFirst3` (first/last-name masking). -/
def censorExcludeFirst3 (value : String) : String :=
  let length := value.length
  if length < 3 then value
  else
    let firstThree := String.mk (value.data.take 3)
    let masked := strRepeat maskingDisplayCharacter (length - 3)
    firstThree ++ masked

/-- `MaskingService.censorFull`. -/
def censorFull (data : String) : String :=
  strRepeat maskingDisplayCharacter data.length

/-- `MaskingService.Masking` dispatcher.  `hmacValue` is the HMAC-MD5 hex
digest used by `Hashing`, passed explicitly (see file header). -/
def Masking (hmacValue : String → String) (value : String) (t : MaskingType) : String :=
  match t with
  | .Msisdn => censorPhoneNumber value
  | .Fbb => censorFbbNumber value
  | .CreditCard => censorCreditCardId value
  | .BankAccount => censorBankAccountNumber value
  | .Email => censorEmail value
  | .IDCard => censorIDCard value
  | .Full => censorFull value
  | .Firstname => censorExcludeFirst3 value
  | .Lastname => censorExcludeFirst3 value
  | .Hashing => hmacValue value

/-! ## Summary data model (`log-dto.go`) and `SetSummary` (`log-service.go`) -/

/-- `SequenceResult` of `log-dto.go`. -/
structure SequenceResult where
  Result : String
  Desc : String
  ResTime : Int
deriving DecidableEq

/-- `Sequence` of `log-dto.go`: the aggregation unit keyed by
`(Node, Command)`. -/
structure Sequence where
  Node : String
  Command : String
  Result : List SequenceResult
deriving DecidableEq

/-- `EventSummary` of `log-dto.go`. -/
structure EventSummary where
  Event : String
  Result : List SequenceResult
deriving DecidableEq

/-- `LogEventTag` of `log-service.go`. -/
structure LogEventTag where
  Node : String
  Command : String
  Code : String
  Description : String
  ResTime : Int
deriving DecidableEq

/-- The search-and-append loop inside `customLoggerService.SetSummary`: find
the first `Sequence` whose `(Node, Command)` matches `param`, append a new
`SequenceResult` to it and stop; `none` when no sequence matches. -/
def appendToMatchingSequence (param : LogEventTag) :
    List Sequence → Option (List Sequence)
  | [] => none
  | seq :: rest =>
    if seq.Node = param.Node ∧ seq.Command = param.Command then
      some ({ seq with
        Result := seq.Result ++ [⟨param.Code, param.Description, param.ResTime⟩] } :: rest)
    else
      (appendToMatchingSequence param rest).map (seq :: ·)

/-- The merge step of `customLoggerService.SetSummary` (after the command
substitution): append the tag's result to the first matching `(Node,
Command)` sequence, or append a fresh sequence at the end. -/
def setSummaryMerge (param : LogEventTag) (seqs : List Sequence) : List Sequence :=
  match appendToMatchingSequence param seqs with
  | some updated => updated
  | none =>
      seqs ++ [{ Node := param.Node, Command := param.Command,
                 Result := [⟨param.Code, param.Description, param.ResTime⟩] }]

/-- `customLoggerService.SetSummary`, as a function of the scope's current
`logDto.ActionDescription` and its `summaryLogAdditionalInfo` list.  An empty
`Command` is replaced by the scope's `ActionDescription` when the latter is
non-empty; then the tag is merged into the first matching `(Node, Command)`
sequence, or appended as a fresh sequence. -/
def SetSummary (actionDescription : String) (param : LogEventTag)
    (seqs : List Sequence) : List Sequence :=
  setSummaryMerge
    (if param.Command = "" ∧ actionDescription ≠ "" then
      { param with Command := actionDescription }
     else param)
    seqs

/-- The `(node, command)` aggregation keys of a sequence list. -/
def sequenceKeys (seqs : List Sequence) : List (String × String) :=
  seqs.map fun s => (s.Node, s.Command)

/-! ## JSON rendering (`encoding/json` as used by the logger) -/

/-!
A JSON value tree, the shape of marshalled Go data.  Arrays and objects
carry their elements through the mutually defined cons-lists `JArr`/`JObj`
(rather than `List`) so that every function over the tree is a mutual
structural recursion, which the kernel can evaluate.
-/

mutual
/-- A JSON value. -/
inductive JVal where
  | null
  | str (s : String)
  | num (n : Int)
  | bool (b : Bool)
  | arr (elems : JArr)
  | obj (fields : JObj)

/-- The element list of a JSON array. -/
inductive JArr where
  | nil
  | cons (hd : JVal) (tl : JArr)

/-- The field list of a JSON object. -/
inductive JObj where
  | nil
  | cons (k : String) (v : JVal) (tl : JObj)
end

/-- Build a `JArr` from a list of values. -/
def JArr.ofList : List JVal → JArr
  | [] => .nil
  | v :: rest => .cons v (JArr.ofList rest)

/-- The element list of a `JArr`. -/
def JArr.toList : JArr → List JVal
  | .nil => []
  | .cons v rest => v :: rest.toList

/-- Build a `JObj` from a list of key/value pairs. -/
def JObj.ofList : List (String × JVal) → JObj
  | [] => .nil
  | kv :: rest => .cons kv.1 kv.2 (JObj.ofList rest)

/-- The field list of a `JObj`. -/
def JObj.toList : JObj → List (String × JVal)
  | .nil => []
  | .cons k v rest => (k, v) :: rest.toList

/-- String escaping of Go `encoding/json` (default HTML-escaping encoder) for
the characters that can occur in this development's data. -/
def jsonEscapeChar (c : Char) : String :=
  if c = '"' then "\\\""
  else if c = '\\' then "\\\\"
  else if c = '\n' then "\\n"
  else if c = '\r' then "\\r"
  else if c = '\t' then "\\t"
  else if c = '<' then "\\u003c"
  else if c = '>' then "\\u003e"
  else if c = '&' then "\\u0026"
  else String.mk [c]

/-- A JSON string literal with Go's escaping. -/
def jsonQuote (s : String) : String :=
  "\"" ++ String.join (s.data.map jsonEscapeChar) ++ "\""

mutual
/-- Compact rendering, Go `json.Marshal`. -/
def renderJVal : JVal → String
  | .null => "null"
  | .str s => jsonQuote s
  | .num n => toString n
  | .bool b => if b then "true" else "false"
  | .arr es => "[" ++ renderJArr es ++ "]"
  | .obj fs => "\x7b" ++ renderJObj fs ++ "\x7d"

/-- Compact rendering of array elements, comma-separated. -/
def renderJArr : JArr → String
  | .nil => ""
  | .cons v .nil => renderJVal v
  | .cons v rest => renderJVal v ++ "," ++ renderJArr rest

/-- Compact rendering of object fields, comma-separated. -/
def renderJObj : JObj → String
  | .nil => ""
  | .cons k v .nil => jsonQuote k ++ ":" ++ renderJVal v
  | .cons k v rest => jsonQuote k ++ ":" ++ renderJVal v ++ "," ++ renderJObj rest
end

/-- Indentation padding of `json.MarshalIndent(v, "", "  ")` at `depth`. -/
def indentPad (depth : Nat) : String :=
  String.mk (List.replicate (2 * depth) ' ')

mutual
/-- Indented rendering, Go `json.MarshalIndent(v, "", "  ")`. -/
def renderJValIndent (depth : Nat) : JVal → String
  | .null => "null"
  | .str s => jsonQuote s
  | .num n => toString n
  | .bool b => if b then "true" else "false"
  | .arr .nil => "[]"
  | .arr es =>
    "[\n" ++ renderJArrIndent (depth + 1) es ++ "\n" ++ indentPad depth ++ "]"
  | .obj .nil => "\x7b\x7d"
  | .obj fs =>
    "\x7b\n" ++ renderJObjIndent (depth + 1) fs ++ "\n" ++ indentPad depth ++ "\x7d"

/-- Indented rendering of array elements, one per line. -/
def renderJArrIndent (depth : Nat) : JArr → String
  | .nil => ""
  | .cons v .nil => indentPad depth ++ renderJValIndent depth v
  | .cons v rest =>
    indentPad depth ++ renderJValIndent depth v ++ ",\n" ++ renderJArrIndent depth rest

/-- Indented rendering of object fields, one per line. -/
def renderJObjIndent (depth : Nat) : JObj → String
  | .nil => ""
  | .cons k v .nil => indentPad depth ++ jsonQuote k ++ ": " ++ renderJValIndent depth v
  | .cons k v rest =>
    indentPad depth ++ jsonQuote k ++ ": " ++ renderJValIndent depth v ++ ",\n"
      ++ renderJObjIndent depth rest
end

/-! ## `LogDto` and its JSON encoding (`log-dto.go`) -/

/-- `Metadata` of `log-dto.go`; every field carries `omitempty`. -/
structure Metadata where
  Topic : String := ""
  MessageValue : String := ""
  Key : String := ""
  ConsumerGroup : String := ""
  Broker : String := ""
  TraceId : String := ""
  SpanId : String := ""
  ClientIP : String := ""
  UserAgent : String := ""
  Referer : String := ""
  Method : String := ""
  URL : String := ""
  Source : String := ""
deriving DecidableEq

/-- `LogDto` of `log-dto.go`.  `StartTime` and `Sequences` carry `json:"-"`
and are never serialized; `Timestamp` (a `*time.Time`) is modelled as the
RFC3339 string Go would render, `ThreadId` as `Nat`, `ResponseTime` as `Int`
(microseconds).  `CustomFields` (`map[string]interface{}`) holds
already-JSON-shaped values.  Defaults are the Go zero values. -/
structure LogDto where
  LogType : String := ""
  ServiceName : String := ""
  Environment : String := ""
  Component : String := ""
  ComponentVersion : String := ""
  Action : String := ""
  ActionDescription : String := ""
  SubAction : String := ""
  Timestamp : Option String := none
  Sequences : List Sequence := []
  Metadata : Metadata := {}
  Instance : String := ""
  Host : String := ""
  RequestId : String := ""
  SessionId : String := ""
  TraceId : String := ""
  SpanId : String := ""
  ResponseTime : Int := 0
  Level : String := ""
  Tags : List String := []
  CustomFields : List (String × JVal) := []
  Message : String := ""
  AppResult : String := ""
  AppResultCode : String := ""
  AppResultHttpStatus : String := ""
  AppResultType : String := ""
  Severity : String := ""
  ThreadId : Nat := 0
  UseCase : String := ""
  UseCaseStep : String := ""

/-- One string field under `omitempty`: omitted when empty. -/
def omitemptyStr (k v : String) : List (String × JVal) :=
  if v = "" then [] else [(k, .str v)]

/-- Whether a `Metadata` value is the zero value (for the `omitzero` tag). -/
def metadataIsZero (m : Metadata) : Bool :=
  m = ({} : Metadata)

/-- JSON fields of `Metadata`, in declaration order, `omitempty` honoured. -/
def metadataFields (m : Metadata) : List (String × JVal) :=
  omitemptyStr "topic" m.Topic ++ omitemptyStr "messageValue" m.MessageValue
    ++ omitemptyStr "key" m.Key ++ omitemptyStr "consumerGroup" m.ConsumerGroup
    ++ omitemptyStr "broker" m.Broker ++ omitemptyStr "traceId" m.TraceId
    ++ omitemptyStr "spanId" m.SpanId ++ omitemptyStr "clientIP" m.ClientIP
    ++ omitemptyStr "userAgent" m.UserAgent ++ omitemptyStr "referer" m.Referer
    ++ omitemptyStr "method" m.Method ++ omitemptyStr "url" m.URL
    ++ omitemptyStr "source" m.Source

/-- The fields Go's `encoding/json` renders for a `LogDto` after the leading
`logType`: declaration order, `omitempty`/`omitzero` honoured, `json:"-"`
fields (`StartTime`, `Sequences`) skipped. -/
def logDtoFieldsTail (d : LogDto) : List (String × JVal) :=
  omitemptyStr "serviceName" d.ServiceName
    ++ omitemptyStr "environment" d.Environment
    ++ omitemptyStr "component" d.Component
    ++ omitemptyStr "componentVersion" d.ComponentVersion
    ++ [("action", .str d.Action), ("actionDescription", .str d.ActionDescription)]
    ++ omitemptyStr "subAction" d.SubAction
    ++ (match d.Timestamp with
        | none => []
        | some t => [("timestamp", JVal.str t)])
    ++ (if metadataIsZero d.Metadata then []
        else [("metadata", .obj (JObj.ofList (metadataFields d.Metadata)))])
    ++ omitemptyStr "instance" d.Instance
    ++ omitemptyStr "host" d.Host
    ++ omitemptyStr "requestId" d.RequestId
    ++ omitemptyStr "sessionId" d.SessionId
    ++ omitemptyStr "traceId" d.TraceId
    ++ omitemptyStr "spanId" d.SpanId
    ++ (if d.ResponseTime = 0 then [] else [("responseTime", .num d.ResponseTime)])
    ++ omitemptyStr "level" d.Level
    ++ (if d.Tags.isEmpty then []
        else [("tags", .arr (JArr.ofList (d.Tags.map .str)))])
    ++ (if d.CustomFields.isEmpty then []
        else [("customFields", .obj (JObj.ofList d.CustomFields))])
    ++ omitemptyStr "message" d.Message
    ++ omitemptyStr "appResult" d.AppResult
    ++ omitemptyStr "appResultCode" d.AppResultCode
    ++ omitemptyStr "appResultHttpStatus" d.AppResultHttpStatus
    ++ omitemptyStr "appResultType" d.AppResultType
    ++ omitemptyStr "severity" d.Severity
    ++ (if d.ThreadId = 0 then [] else [("threadId", .num (Int.ofNat d.ThreadId))])
    ++ omitemptyStr "useCase" d.UseCase
    ++ omitemptyStr "useCaseStep" d.UseCaseStep

/-- The JSON object Go's `encoding/json` produces for a `LogDto`: the
always-present `logType` first, then `logDtoFieldsTail`. -/
def logDtoJVal (d : LogDto) : JVal :=
  .obj (JObj.ofList (("logType", .str d.LogType) :: logDtoFieldsTail d))

/-! ## Summary flush (`summaryLogService.Flush` in `ctx.go`) and `End` -/

/-- `Stack` of the summary log service, fields in Go declaration order. -/
structure Stack where
  Status : String := ""
  ResultType : String := ""
  Severity : String := ""
  Message : String := ""
  Code : String := ""
deriving DecidableEq

/-- The scope state of `customLoggerService` relevant to the summary
lifecycle: its `logDto` and its accumulated `summaryLogAdditionalInfo`.
(The `isSetSummaryLogParameters` and `additionalSummary` fields of the Go
struct are written once at construction and never read; they are omitted.) -/
structure CustomLoggerState where
  logDto : LogDto := {}
  summaryLogAdditionalInfo : List Sequence := []

/-- Default result type constant referenced by `Flush`.
Modelled from the spec: the `HEALTHY` constant's defining Go source is not
under `src/` (only its use in `ctx.go` is); the spec gives the default
result-type as "healthy". -/
def HEALTHY : String := "healthy"

/-- Default severity constant referenced by `Flush`.
Modelled from the spec: the `NORMAL` constant's defining Go source is not
under `src/` (only its use in `ctx.go` is); the spec gives the default
severity as "normal". -/
def NORMAL : String := "normal"

/-- `summaryLogService.clearNonSummaryLogParam`. -/
def clearNonSummaryLogParam (d : LogDto) : LogDto :=
  { d with Action := "", Timestamp := none, ActionDescription := "",
           SubAction := "", Metadata := {} }

/-- JSON encoding of one `SequenceResult` (`result_code`, `result_desc`,
`res_time,omitempty`). -/
def sequenceResultJVal (r : SequenceResult) : JVal :=
  .obj (JObj.ofList
    ([("result_code", .str r.Result), ("result_desc", .str r.Desc)]
      ++ (if r.ResTime = 0 then [] else [("res_time", .num r.ResTime)])))

/-- JSON encoding of the `[]EventSummary` marshalled inside `Flush`. -/
def eventsJVal (es : List EventSummary) : JVal :=
  .arr (JArr.ofList (es.map fun e =>
    .obj (JObj.ofList
      [("event", .str e.Event),
       ("result", .arr (JArr.ofList (e.Result.map sequenceResultJVal)))])))

/-- `summaryLogService.Flush`, parameterized by the measured elapsed time in
microseconds (`time.Since(...begin).Microseconds()`) and the goroutine id.
The summary service is freshly built by `End` via `NewSummaryLogService`, so
its working `logDto` starts as a copy of the scope's `logDto`.  Returns the
emitted summary record, the emitted line (`json.Marshal`, compact) and the
scope state after the flush (`summaryLogAdditionalInfo` nilled when it was
non-empty). -/
def Flush (c : CustomLoggerState) (elapsedMicros : Int) (threadId : Nat)
    (data : Stack) : LogDto × String × CustomLoggerState :=
  let s1 := { c.logDto with LogType := "summary", ResponseTime := elapsedMicros }
  let s2 := { s1 with AppResultCode :=
    if data.Code ≠ "" then data.Code
    else if c.logDto.AppResultCode ≠ "" then c.logDto.AppResultCode
    else "20000" }
  let s3 := { s2 with AppResultHttpStatus :=
    if data.Status ≠ "" then data.Status
    else if c.logDto.AppResultHttpStatus ≠ "" then c.logDto.AppResultHttpStatus
    else "200" }
  let s4 := { s3 with AppResultType :=
    if c.logDto.AppResultType ≠ "" then c.logDto.AppResultType else HEALTHY }
  let s5 := { s4 with Severity :=
    if c.logDto.Severity ≠ "" then c.logDto.Severity else NORMAL }
  let s6 := { s5 with AppResult :=
    if data.ResultType ≠ "" then
      (if data.ResultType.toLower = "ok" then "Success" else data.ResultType)
    else if c.logDto.AppResult ≠ "" then c.logDto.AppResult
    else "Success" }
  let step :=
    if c.summaryLogAdditionalInfo.isEmpty then (s6, c)
    else
      let sequences := s6.Sequences ++ c.summaryLogAdditionalInfo
      let events := sequences.map fun q =>
        EventSummary.mk (q.Node ++ "." ++ q.Command) q.Result
      ({ s6 with Message := renderJVal (eventsJVal events), Sequences := [] },
       { c with summaryLogAdditionalInfo := [] })
  let s7 := clearNonSummaryLogParam step.1
  let s8 := { s7 with ThreadId := threadId }
  (s8, renderJVal (logDtoJVal s8), step.2)

/-- `resultCodeType` of `log-service.go`. -/
structure resultCodeType where
  StatusCode : String
  ResultCode : String
  Message : String
deriving DecidableEq

/-- `ConvertTTTTT`: right-pad the code string with zeros to width 5.  (Go
`strings.Repeat` panics on a negative count, i.e. for inputs longer than 5
characters; Lean's truncated subtraction makes this total — no input of this
development exceeds 5 characters.) -/
def ConvertTTTTT (input : String) : String :=
  input ++ strRepeat "0" (5 - input.length)

/-- `net/http.StatusText`, restricted to the status codes enumerated in
`expandResultCode` (the only codes this development evaluates); every other
code maps to `""`, which `mapHTTPStatusToSnakeCaseText` renders "unknown". -/
def statusText (code : Int) : String :=
  if code = 200 then "OK"
  else if code = 400 then "Bad Request"
  else if code = 401 then "Unauthorized"
  else if code = 403 then "Forbidden"
  else if code = 404 then "Not Found"
  else if code = 409 then "Conflict"
  else if code = 429 then "Too Many Requests"
  else if code = 500 then "Internal Server Error"
  else if code = 501 then "Not Implemented"
  else if code = 503 then "Service Unavailable"
  else if code = 504 then "Gateway Timeout"
  else ""

/-- `toSnakeCase` of `log-service.go`. -/
def toSnakeCase (s : String) : String :=
  ((s.trim.toLower).replace " " "_").replace "-" "_"

/-- `mapHTTPStatusToSnakeCaseText` of `log-service.go`. -/
def mapHTTPStatusToSnakeCaseText (code : Int) : String :=
  let text := statusText code
  if text = "" then "unknown" else toSnakeCase text

/-- `expandResultCode` of `log-service.go`. -/
def expandResultCode (code : Int) : resultCodeType :=
  if code = 200 then
    ⟨"200", ConvertTTTTT "200", "Success"⟩
  else if code = 400 then
    ⟨"400", ConvertTTTTT "400", mapHTTPStatusToSnakeCaseText 400⟩
  else if code = 401 then
    ⟨"401", ConvertTTTTT "401", mapHTTPStatusToSnakeCaseText 401⟩
  else if code = 403 then
    ⟨"403", ConvertTTTTT "403", mapHTTPStatusToSnakeCaseText 403⟩
  else if code = 404 then
    ⟨"404", ConvertTTTTT "404", mapHTTPStatusToSnakeCaseText 404⟩
  else if code = 500 then
    ⟨"500", ConvertTTTTT "500", mapHTTPStatusToSnakeCaseText 500⟩
  else if code = 503 then
    ⟨"503", ConvertTTTTT "503", mapHTTPStatusToSnakeCaseText 503⟩
  else if code = 504 then
    ⟨"504", ConvertTTTTT "504", mapHTTPStatusToSnakeCaseText 504⟩
  else if code = 409 then
    ⟨"409", ConvertTTTTT "409", mapHTTPStatusToSnakeCaseText 409⟩
  else if code = 429 then
    ⟨"429", ConvertTTTTT "429", mapHTTPStatusToSnakeCaseText 429⟩
  else if code = 501 then
    ⟨"501", ConvertTTTTT "501", mapHTTPStatusToSnakeCaseText 501⟩
  else
    ⟨"Error", ConvertTTTTT (toString code), mapHTTPStatusToSnakeCaseText code⟩

/-- `customLoggerService.End`.  Builds the final `Stack` from the HTTP code,
constructs a fresh summary service and flushes it, then resets the scope's
`logDto`.  The Go statements `summaryLog = nil` and `c = nil` assign to local
variables only (a nil assignment to a method's pointer receiver does not
invalidate the caller's reference), so `End` has no failure path and leaves
the receiver callable; the model is accordingly total.  Returns the new scope
state and the list of summary records emitted by this call (always exactly
one). -/
def End (c : CustomLoggerState) (elapsedMicros : Int) (threadId : Nat)
    (code : Int) (message : String) : CustomLoggerState × List LogDto :=
  let result := expandResultCode code
  let message := if message = "" then result.Message else message
  let stack : Stack :=
    { Code := result.ResultCode, Message := message, Status := result.StatusCode }
  let flushed := Flush c elapsedMicros threadId stack
  ({ flushed.2.2 with logDto := {} }, [flushed.1])

/-! ## Character-list implementations of the `strings` helpers

The Go code uses `strings.Split`, `strings.Contains`, `strings.TrimSuffix`
and `strings.TrimPrefix` on rule paths.  They are modelled over the
character list of the string (the core `String` versions do not evaluate
inside the kernel); every separator in the source is a single ASCII
character, for which the semantics agree with Go's. -/

/-- Worker for `goSplit`: accumulate the current (reversed) segment. -/
def goSplitAux (sep : Char) : List Char → List Char → List String
  | [], acc => [String.mk acc.reverse]
  | c :: rest, acc =>
    if c = sep then String.mk acc.reverse :: goSplitAux sep rest []
    else goSplitAux sep rest (c :: acc)

/-- Go `strings.Split(s, string(sep))` for a one-character separator. -/
def goSplit (s : String) (sep : Char) : List String :=
  goSplitAux sep s.data []

/-- Go `strings.Contains(s, string(c))` for a one-character needle. -/
def goContainsChar (s : String) (c : Char) : Bool :=
  s.data.contains c

/-! ## Heap model of JSON payloads

Go's `map[string]any` and `[]any` are mutable references.  A `Store` is a
list of heap cells addressed by position; scalars are held inline in `HVal`.
`readHVal` is `json.Marshal` (deep read), `unmarshalJ` is `json.Unmarshal`
into fresh cells. -/

/-- A Go `any` value after JSON unmarshalling: a scalar, or a reference to a
map/slice cell. -/
inductive HVal where
  | null
  | str (s : String)
  | num (n : Int)
  | bool (b : Bool)
  | ref (a : Nat)
deriving DecidableEq

/-- A mutable heap cell: a `[]any` or a `map[string]any`. -/
inductive HCell where
  | arr (elems : List HVal)
  | obj (fields : List (String × HVal))
deriving DecidableEq

/-- The heap. -/
abbrev Store := List HCell

/-- Go map lookup: the value at `key`, `nil` when absent. -/
def goMapGet : List (String × HVal) → String → HVal
  | [], _ => .null
  | (k, v) :: rest, key => if k = key then v else goMapGet rest key

/-- Go map assignment: replace the value at `key`, or add the key. -/
def setField : List (String × HVal) → String → HVal → List (String × HVal)
  | [], k, v => [(k, v)]
  | (k', v') :: rest, k, v =>
    if k' = k then (k, v) :: rest else (k', v') :: setField rest k v

/-- Deep read (`json.Marshal`) with fuel; `none` on a reference cycle or a
dangling address (Go: marshal error). -/
def readHVal : Nat → Store → HVal → Option JVal
  | _, _, .null => some .null
  | _, _, .str s => some (.str s)
  | _, _, .num n => some (.num n)
  | _, _, .bool b => some (.bool b)
  | 0, _, .ref _ => none
  | fuel + 1, st, .ref a =>
    match st[a]? with
    | none => none
    | some (.arr es) =>
      (es.mapM (readHVal fuel st)).map fun l => .arr (JArr.ofList l)
    | some (.obj fs) =>
      (fs.mapM fun kv => (readHVal fuel st kv.2).map fun j => (kv.1, j)).map
        fun l => .obj (JObj.ofList l)

mutual
/-- `json.Unmarshal` of a JSON value into fresh heap cells.  Arrays and
objects allocate their children left to right and then their own cell at the
end of the store. -/
def unmarshalJ : JVal → Store → Store × HVal
  | .null, st => (st, .null)
  | .str s, st => (st, .str s)
  | .num n, st => (st, .num n)
  | .bool b, st => (st, .bool b)
  | .arr es, st =>
    let r := unmarshalArr es st
    (r.1 ++ [.arr r.2], .ref r.1.length)
  | .obj fs, st =>
    let r := unmarshalObj fs st
    (r.1 ++ [.obj r.2], .ref r.1.length)

/-- Unmarshal the elements of a JSON array, left to right. -/
def unmarshalArr : JArr → Store → Store × List HVal
  | .nil, st => (st, [])
  | .cons e rest, st =>
    let r1 := unmarshalJ e st
    let r2 := unmarshalArr rest r1.1
    (r2.1, r1.2 :: r2.2)

/-- Unmarshal the fields of a JSON object, left to right. -/
def unmarshalObj : JObj → Store → Store × List (String × HVal)
  | .nil, st => (st, [])
  | .cons k v rest, st =>
    let r1 := unmarshalJ v st
    let r2 := unmarshalObj rest r1.1
    (r2.1, (k, r1.2) :: r2.2)
end

/-! ## The masking walkers of `log-service.go`, over the heap model -/

/-- `setNestedProperty`: walk intermediate keys through maps, then mask the
leaf when it is a string.  A failed map assertion or a non-string leaf is a
no-op. -/
def setNestedPropertyH (hmac : String → String) (maskType : MaskingType)
    (st : Store) : HVal → List String → Store
  | root, [lastKey] =>
    match root with
    | .ref a =>
      match st[a]? with
      | some (.obj fs) =>
        match goMapGet fs lastKey with
        | .str val =>
          st.set a (.obj (setField fs lastKey (.str (Masking hmac val maskType))))
        | _ => st
      | _ => st
    | _ => st
  | root, key :: rest =>
    match root with
    | .ref a =>
      match st[a]? with
      | some (.obj fs) =>
        match goMapGet fs key with
        | .ref a2 =>
          match st[a2]? with
          | some (.obj _) => setNestedPropertyH hmac maskType st (.ref a2) rest
          | _ => st
        | _ => st
      | _ => st
    | _ => st
  | _, [] => st

/-- The walk over `keys[0 .. len-2]` inside `SetNestedArrayProperty`:
each step asserts the current value is a map and moves to `current[key]`
(without asserting the child's type); `none` means the Go function returned
early. -/
def setNestedArrayWalk (st : Store) : List String → HVal → Option HVal
  | [], current => some current
  | key :: rest, current =>
    match current with
    | .ref a =>
      match st[a]? with
      | some (.obj fs) => setNestedArrayWalk st rest (goMapGet fs key)
      | _ => none
    | _ => none

/-- One iteration of the element loop of `SetNestedArrayProperty`: when the
element is a map, set its `"key1"` entry to the masked value of its current
`"key1"` string (the key name is hardcoded in the Go source; a missing or
non-string `"key1"` reads as `""`). -/
def maskKey1One (hmac : String → String) (mt : MaskingType) (st : Store)
    (v : HVal) : Store :=
  match v with
  | .ref e =>
    match st[e]? with
    | some (.obj efs) =>
      let oldVal := match goMapGet efs "key1" with | .str s => s | _ => ""
      st.set e (.obj (setField efs "key1" (.str (Masking hmac oldVal mt))))
    | _ => st
  | _ => st

/-- The element loop of `SetNestedArrayProperty`. -/
def maskKey1Elems (hmac : String → String) (mt : MaskingType) :
    Store → List HVal → Store
  | st, [] => st
  | st, v :: rest => maskKey1Elems hmac mt (maskKey1One hmac mt st v) rest

/-- `SetNestedArrayProperty` of `log-service.go`. -/
def SetNestedArrayPropertyH (hmac : String → String) (st : Store) (root : HVal)
    (path : String) (mt : MaskingType) : Store :=
  let keys := goSplit path '.' 
  match setNestedArrayWalk st keys.dropLast root with
  | none => st
  | some current =>
    match current with
    | .ref a =>
      match st[a]? with
      | some (.obj fs) =>
        match goMapGet fs (keys.getLastD "") with
        | .ref b =>
          match st[b]? with
          | some (.arr elems) => maskKey1Elems hmac mt st elems
          | _ => st
        | _ => st
      | _ => st
    | _ => st

/-- The walk of `GetObjectByStringKeys`: maps descend by key (a `nil` value
stops with `nil`), a slice or scalar mid-path yields `nil`. -/
def getObjectWalk (st : Store) : List String → HVal → HVal
  | [], current => current
  | key :: rest, current =>
    match current with
    | .ref a =>
      match st[a]? with
      | some (.obj fs) =>
        match goMapGet fs key with
        | .null => .null
        | nxt => getObjectWalk st rest nxt
      | some (.arr _) => .null
      | none => .null
    | _ => .null

/-- `GetObjectByStringKeys` of `log-service.go`: the `[]any` at `path` under
`obj`, or `[]`. -/
def GetObjectByStringKeysH (st : Store) (obj : HVal) (path : String) : List HVal :=
  match getObjectWalk st (goSplit path '.') obj with
  | .ref a =>
    match st[a]? with
    | some (.arr es) => es
    | _ => []
  | _ => []

/-! ## `cloneAndMask` (`log-service.go`), over the heap model -/

/-- `MaskingOptionDto` of `masking.go`. -/
structure MaskingOptionDto where
  MaskingField : String
  MaskingType : MaskingType
  IsArray : Bool := false

/-- Go `strings.TrimSuffix`. -/
def goTrimSuffix (s suffix : String) : String :=
  if suffix.data.isSuffixOf s.data then
    String.mk (s.data.take (s.data.length - suffix.data.length))
  else s

/-- Go `strings.TrimPrefix`. -/
def goTrimLeading (s head : String) : String :=
  if head.data.isPrefixOf s.data then String.mk (s.data.drop head.data.length)
  else s

/-- Join a list of strings with a one-character separator. -/
def goJoinSep (sep : Char) : List String → String
  | [] => ""
  | [x] => x
  | x :: rest => x ++ String.mk [sep] ++ goJoinSep sep rest

/-- Go `strings.Replace(field, "*", idx, 1)`: replace the first `*`. -/
def replaceFirstStar (field : String) (idx : String) : String :=
  match goSplit field '*' with
  | [] => field
  | [_] => field
  | s :: rest => s ++ idx ++ goJoinSep '*' rest

/-- One iteration of the wildcard branch of the map-payload loop in
`cloneAndMask`: apply `setNestedProperty` with the post-`*` suffix when the
element is a map, else skip it. -/
def maskSuffixOne (hmac : String → String) (mt : MaskingType)
    (suffix : String) (st : Store) (v : HVal) : Store :=
  match v with
  | .ref e =>
    match st[e]? with
    | some (.obj _) => setNestedPropertyH hmac mt st (.ref e) (goSplit suffix '.')
    | _ => st
  | _ => st

/-- The wildcard branch of the map-payload loop in `cloneAndMask`: iterate the
captured `lookupArr`. -/
def maskSuffixElems (hmac : String → String) (mt : MaskingType)
    (suffix : String) : Store → List HVal → Store
  | st, [] => st
  | st, v :: rest => maskSuffixElems hmac mt suffix (maskSuffixOne hmac mt suffix st v) rest

/-- One masking option applied to the (map-payload) clone root. -/
def applyMapOption (hmac : String → String) (st : Store) (cloneRoot : HVal)
    (opt : MaskingOptionDto) : Store :=
  if opt.IsArray ∧ goContainsChar opt.MaskingField '*' then
    let parts := goSplit opt.MaskingField '*'
    let root := goTrimSuffix (parts.headD "") "."
    let suffix := goTrimLeading (parts.getD 1 "") "."
    let lookupArr := GetObjectByStringKeysH st cloneRoot root
    maskSuffixElems hmac opt.MaskingType suffix st lookupArr
  else
    setNestedPropertyH hmac opt.MaskingType st cloneRoot (goSplit opt.MaskingField '.')

/-- One masking option applied to one element of a top-level-array clone:
a wildcard field resolves the pre-`*` array, then substitutes each index for
the `*` and calls `SetNestedArrayProperty`; a plain field walks
`setNestedProperty`. -/
def applyArrOption (hmac : String → String) (st : Store) (elem : HVal)
    (opt : MaskingOptionDto) : Store :=
  if goContainsChar opt.MaskingField '*' then
    let parts := goSplit opt.MaskingField '*'
    let root := goTrimSuffix (parts.headD "") "."
    let lookupArr := GetObjectByStringKeysH st elem root
    (List.range lookupArr.length).foldl
      (fun acc index =>
        SetNestedArrayPropertyH hmac acc elem
          (replaceFirstStar opt.MaskingField (toString index)) opt.MaskingType)
      st
  else
    setNestedPropertyH hmac opt.MaskingType st elem (goSplit opt.MaskingField '.')

/-- `json.Unmarshal` of the raw bytes into `[]map[string]any`: every element
must be an object or `null` (a `null` element leaves a nil map, which every
later walker treats as empty); anything else is an unmarshal error. -/
def unmarshalMapSlice : List JVal → Store → Option (Store × List HVal)
  | [], st => some (st, [])
  | .obj fs :: rest, st =>
    let r := unmarshalJ (.obj fs) st
    (unmarshalMapSlice rest r.1).map fun r2 => (r2.1, r.2 :: r2.2)
  | .null :: rest, st =>
    (unmarshalMapSlice rest st).map fun r2 => (r2.1, .null :: r2.2)
  | _, _ => none

/-- `cloneAndMask` of `log-service.go`.  Returns the resulting store and
`some` masked clone (`some data` itself on the fast path and on
marshal/unmarshal errors); `none` models the `isArrayOrSlice` panic on a nil
payload (`reflect.TypeOf(nil).Kind()` dereferences a nil `reflect.Type`),
which happens before any write. -/
def cloneAndMaskH (hmac : String → String) (st : Store) (data : HVal)
    (options : List MaskingOptionDto) : Store × Option HVal :=
  if options.isEmpty then (st, some data)
  else
    match readHVal (st.length + 1) st data with
    | none => (st, some data)
    | some raw =>
      match data with
      | .null => (st, none)
      | .ref a =>
        match st[a]?, raw with
        | some (.arr _), .arr es =>
          match unmarshalMapSlice es.toList st with
          | none => (st, some data)
          | some (st1, clones) =>
            let st2 := clones.foldl
              (fun acc elem =>
                options.foldl (fun acc2 opt => applyArrOption hmac acc2 elem opt) acc)
              st1
            (st2 ++ [.arr clones], some (.ref st2.length))
        | some (.obj _), .obj fs =>
          let r := unmarshalJ (.obj fs) st
          let st2 := options.foldl (fun acc opt => applyMapOption hmac acc r.2 opt) r.1
          (st2, some r.2)
        | _, _ => (st, some data)
      | _ => (st, some data)

/-! ## Detail logger (`toStr` / `Info` of `log-service.go`) -/

/-- `LoggerAction` (per the `logAction` package shared by the services). -/
structure LoggerAction where
  Action : String := ""
  ActionDescription : String := ""
  SubAction : String := ""

/-- `toJSON` of `log-service.go`: strings pass through, scalars print as Go
`%v` (lower-cased/trimmed, identity for ints and bools), `nil` gives `""`,
composites marshal to compact JSON (a marshal error is discarded, giving
`""`). -/
def toJSON (st : Store) (v : HVal) : String :=
  match v with
  | .str s => s
  | .num n => toString n
  | .bool b => if b then "true" else "false"
  | .null => ""
  | .ref _ =>
    match readHVal (st.length + 1) st v with
    | some j => renderJVal j
    | none => ""

/-- `customLoggerService.toStr`: mask the payload, set the transient record
fields, stamp the time, and serialize the whole record with
`json.MarshalIndent(c.logDto, "", "  ")` (the marshal of the model record
never fails, so the `{"error": ...}` fallback of the Go code is not taken).
`none` models the panic propagated out of `cloneAndMask` for a nil payload
with rules. -/
def toStr (hmac : String → String) (st : Store) (dto : LogDto)
    (action : LoggerAction) (data : HVal) (options : List MaskingOptionDto)
    (now : String) : Option (String × LogDto × Store) :=
  let r := cloneAndMaskH hmac st data options
  match r.2 with
  | none => none
  | some cloned =>
    let dto1 := { dto with
      Action := action.Action,
      ActionDescription := action.ActionDescription,
      SubAction := action.SubAction,
      Message := toJSON r.1 cloned,
      Timestamp := some now }
    some (renderJValIndent 0 (logDtoJVal dto1), dto1, r.1)

/-- `customLoggerService.Info`: emit the `toStr` line, then reset the
transient `Metadata` and `SubAction`. -/
def Info (hmac : String → String) (st : Store) (dto : LogDto)
    (action : LoggerAction) (data : HVal) (options : List MaskingOptionDto)
    (now : String) : Option (String × LogDto × Store) :=
  (toStr hmac st dto action data options now).map fun t =>
    (t.1, { t.2.1 with Metadata := {}, SubAction := "" }, t.2.2)

/-! ## Frame predicates for the heap model -/

/-- A value references only addresses below `n`. -/
def refBelowB (n : Nat) : HVal → Bool
  | .ref a => decide (a < n)
  | _ => true

/-- A cell references only addresses below `n`. -/
def cellBelowB (n : Nat) : HCell → Bool
  | .arr es => es.all (refBelowB n)
  | .obj fs => fs.all fun kv => refBelowB n kv.2

/-- A well-formed store: every cell references only valid addresses. -/
def WfStore (st : Store) : Prop :=
  ∀ c ∈ st, cellBelowB st.length c = true

/-- A value references only addresses at or above `n`. -/
def refHighB (n : Nat) : HVal → Bool
  | .ref a => decide (n ≤ a)
  | _ => true

/-- A cell references only addresses at or above `n`. -/
def cellHighB (n : Nat) : HCell → Bool
  | .arr es => es.all (refHighB n)
  | .obj fs => fs.all fun kv => refHighB n kv.2

/-- The two stores agree on every address below `n`. -/
def AgreesBelow (n : Nat) (st st' : Store) : Prop :=
  ∀ i, i < n → st'[i]? = st[i]?

/-- Every cell at an address `≥ n` references only addresses `≥ n` (the clone
region is closed under reachability). -/
def HighClosed (n : Nat) (st : Store) : Prop :=
  ∀ i, n ≤ i → ∀ c, st[i]? = some c → cellHighB n c = true

/-- A mutation step that keeps the low region intact: the result agrees below
`n`, its high region stays closed, and it is at least `n` long. -/
def StoreStep (n : Nat) (st st' : Store) : Prop :=
  AgreesBelow n st st' ∧ HighClosed n st' ∧ n ≤ st'.length

/-! ## Concrete evaluation inputs -/

/-- The heap of the payload `[{"a": [{"c": "secret"}]}]` (a top-level array
whose element holds an array of objects under `"a"`). -/
def st5 : Store :=
  [.obj [("c", .str "secret")], .arr [.ref 0], .obj [("a", .ref 1)], .arr [.ref 2]]

/-- The JSON value of `st5`'s root (address 3). -/
def payload5 : JVal :=
  .arr (JArr.ofList
    [.obj (JObj.ofList
      [("a", .arr (JArr.ofList [.obj (JObj.ofList [("c", .str "secret")])]))])])

/-- `payload5` with the `"c"` field full-masked, the result the wildcard rule
`a.*.c` is documented to produce. -/
def payload5Masked : JVal :=
  .arr (JArr.ofList
    [.obj (JObj.ofList
      [("a", .arr (JArr.ofList [.obj (JObj.ofList [("c", .str "XXXXXX")])]))])])

/-- A detail-scope `LogDto` as `newContext` (ctx.go) initializes it for an
HTTP request. -/
def detailScopeDto : LogDto :=
  { LogType := "detail", ServiceName := "order-service",
    ComponentVersion := "1.0.0", Instance := "host-1",
    Metadata := { ClientIP := "127.0.0.1", Method := "GET", URL := "/orders",
                  Source := "api", Broker := "none" } }

/-- The first half of the `mask` no-mutation witness input: the heap of
`{"name": "bob"}`. -/
def st7 : Store := [.obj [("name", .str "bob")]]

/-! # Theorems -/

/-! ## Masking function examples (claims C3, C4) -/

/-- Claim C3, counterexample: masking `"abc@example.com"` with the email
masking type does not return `"abcXXXXXXXXXXXX"` (the `@` and `.` are kept,
as the rule part of the claim itself requires). -/
theorem email_mask_example_not_all_masked :
    Masking (fun s => s) "abc@example.com" MaskingType.Email ≠ "abcXXXXXXXXXXXX" := by
  decide

/-- Claim C3, amended: masking `"abc@example.com"` with the email masking
type keeps the first 3 characters, replaces every remaining alphanumeric
character by `X`, and leaves the non-alphanumeric `@` and `.` unmasked,
returning exactly `"abc@XXXXXXX.XXX"` (for every hash collaborator). -/
theorem email_mask_example_value (hmacValue : String → String) :
    Masking hmacValue "abc@example.com" MaskingType.Email = "abc@XXXXXXX.XXX" :=
  (by decide : censorEmail "abc@example.com" = "abc@XXXXXXX.XXX")

/-- Claim C4, counterexample: masking the 10-character `"0812345678"` with
the phone masking type does not return `"081XXXXX678"` (that string is not
even what the claim's own rule `first 3 + mask(len-7) + last 4` produces). -/
theorem phone_mask_example_counterexample :
    Masking (fun s => s) "0812345678" MaskingType.Msisdn ≠ "081XXXXX678" := by
  decide

/-- Claim C4, amended: masking `"0812345678"` (10 characters) with the phone
masking type returns `"081"` + 3 mask characters + `"5678"`, i.e. exactly
`"081XXX5678"`, per the rule first 3 + mask(length−7) + last 4 (for every
hash collaborator). -/
theorem phone_mask_example_value (hmacValue : String → String) :
    Masking hmacValue "0812345678" MaskingType.Msisdn = "081XXX5678" :=
  (by decide : censorPhoneNumber "0812345678" = "081XXX5678")

/-! ## Summary aggregation (claims C6, C10) -/

theorem appendToMatchingSequence_keys (param : LogEventTag) :
    ∀ seqs updated, appendToMatchingSequence param seqs = some updated →
      sequenceKeys updated = sequenceKeys seqs := by
  intro seqs
  induction seqs with
  | nil => intro updated h; simp [appendToMatchingSequence] at h
  | cons seq rest ih =>
    intro updated h
    by_cases hm : seq.Node = param.Node ∧ seq.Command = param.Command
    · rw [appendToMatchingSequence, if_pos hm, Option.some.injEq] at h
      subst h
      simp [sequenceKeys]
    · rw [appendToMatchingSequence, if_neg hm] at h
      rcases Option.map_eq_some'.mp h with ⟨u, hu, rfl⟩
      have hk := ih u hu
      simp only [sequenceKeys] at hk ⊢
      simp [hk]

theorem appendToMatchingSequence_none (param : LogEventTag) :
    ∀ seqs, appendToMatchingSequence param seqs = none →
      (param.Node, param.Command) ∉ sequenceKeys seqs := by
  intro seqs
  induction seqs with
  | nil => intro _; simp [sequenceKeys]
  | cons seq rest ih =>
    intro h
    by_cases hm : seq.Node = param.Node ∧ seq.Command = param.Command
    · rw [appendToMatchingSequence, if_pos hm] at h
      exact absurd h (by simp)
    · rw [appendToMatchingSequence, if_neg hm] at h
      have hrest := ih (by
        cases hr : appendToMatchingSequence param rest with
        | none => rfl
        | some u => rw [hr] at h; simp at h)
      simp only [sequenceKeys, List.map_cons, List.mem_cons]
      rintro (hk | hk)
      · exact hm ⟨(Prod.mk.injEq .. ▸ hk).1.symm, (Prod.mk.injEq .. ▸ hk).2.symm⟩
      · exact hrest hk

theorem setSummaryMerge_keys_nodup (param : LogEventTag) (seqs : List Sequence)
    (h : (sequenceKeys seqs).Nodup) :
    (sequenceKeys (setSummaryMerge param seqs)).Nodup := by
  unfold setSummaryMerge
  cases happ : appendToMatchingSequence param seqs with
  | some updated =>
    simpa [appendToMatchingSequence_keys param seqs updated happ] using h
  | none =>
    have hnotin := appendToMatchingSequence_none param seqs happ
    simp only [sequenceKeys, List.map_append, List.map_cons, List.map_nil]
    rw [List.nodup_append]
    refine ⟨h, List.nodup_singleton _, ?_⟩
    intro k hk
    simp only [List.mem_singleton]
    rintro rfl
    exact hnotin hk

theorem setSummary_keys_nodup (actionDescription : String) (param : LogEventTag)
    (seqs : List Sequence) (h : (sequenceKeys seqs).Nodup) :
    (sequenceKeys (SetSummary actionDescription param seqs)).Nodup :=
  setSummaryMerge_keys_nodup _ seqs h

theorem foldl_setSummary_keys_nodup (calls : List (String × LogEventTag)) :
    ∀ seqs, (sequenceKeys seqs).Nodup →
      (sequenceKeys (calls.foldl (fun s c => SetSummary c.1 c.2 s) seqs)).Nodup := by
  induction calls with
  | nil => intro seqs h; simpa using h
  | cons c rest ih =>
    intro seqs h
    simpa [List.foldl_cons] using ih _ (setSummary_keys_nodup c.1 c.2 seqs h)

/-- Claim C6: within one scope the `(node, command)` keys of the accumulated
sequences stay pairwise distinct after any run of `SetSummary` calls (each
call either appends to the matching sequence or adds a sequence with a fresh
key), and in particular two `setSummary` calls with node `"mongo"` and
command `"insert_order"` (code `"200"`) yield exactly one `Sequence` holding
the two results. -/
theorem setSummary_merges_same_node_command :
    (∀ calls : List (String × LogEventTag),
      (sequenceKeys (calls.foldl (fun s c => SetSummary c.1 c.2 s) [])).Nodup)
    ∧ SetSummary "" ⟨"mongo", "insert_order", "200", "", 0⟩
        (SetSummary "" ⟨"mongo", "insert_order", "200", "", 0⟩ []) =
        [⟨"mongo", "insert_order", [⟨"200", "", 0⟩, ⟨"200", "", 0⟩]⟩] := by
  constructor
  · intro calls
    exact foldl_setSummary_keys_nodup calls [] (by simp [sequenceKeys])
  · decide

/-- Claim C10: a `SetSummary` call whose tag has an empty `Command` while the
scope's current `ActionDescription` is non-empty behaves exactly as if the
tag carried the `ActionDescription` as its command, and on a fresh scope it
records the aggregation key `(node, ActionDescription)` — the merge key
depends on the most recent detail emission, not only on the caller's tag. -/
theorem setSummary_empty_command_uses_action_description
    (actionDescription : String) (param : LogEventTag) (seqs : List Sequence)
    (hcmd : param.Command = "") (had : actionDescription ≠ "") :
    SetSummary actionDescription param seqs =
      SetSummary actionDescription { param with Command := actionDescription } seqs
    ∧ sequenceKeys (SetSummary actionDescription param []) =
      [(param.Node, actionDescription)] := by
  constructor
  · unfold SetSummary
    rw [if_pos ⟨hcmd, had⟩, if_neg]
    rintro ⟨h1, -⟩
    exact had h1
  · unfold SetSummary
    rw [if_pos ⟨hcmd, had⟩]
    simp [setSummaryMerge, appendToMatchingSequence, sequenceKeys]

/-- Witness for claim C10 at concrete inputs. -/
theorem setSummary_empty_command_witness :
    (SetSummary "insert_order" ⟨"mongo", "", "200", "", 0⟩ [] =
      SetSummary "insert_order" ⟨"mongo", "insert_order", "200", "", 0⟩ [])
    ∧ sequenceKeys (SetSummary "insert_order" ⟨"mongo", "", "200", "", 0⟩ []) =
      [("mongo", "insert_order")] :=
  setSummary_empty_command_uses_action_description "insert_order"
    ⟨"mongo", "", "200", "", 0⟩ [] rfl (by decide)

/-! ## Summary flush and scope end (claims C8, C7, C1) -/

/-- Claim C8, counterexample: a flush that explicitly passes result-type
`"degraded"` and severity `"critical"` on a scope with no earlier values
emits the defaults `"healthy"`/`"normal"` — the explicit values passed to
flush are ignored for these two fields, contradicting the claimed
three-level precedence. -/
theorem flush_ignores_explicit_result_type_and_severity :
    (Flush {} 0 0 { ResultType := "degraded", Severity := "critical" }).1.AppResultType
        = "healthy"
    ∧ (Flush {} 0 0 { ResultType := "degraded", Severity := "critical" }).1.Severity
        = "normal"
    ∧ ("healthy" : String) ≠ "degraded" ∧ ("normal" : String) ≠ "critical" :=
  ⟨rfl, rfl, by decide, by decide⟩

/-- Claim C8, amended: the emitted result code and http-status follow the
precedence explicit-flush-value, else scope value, else default
(`"20000"`/`"200"`); the emitted result-type and severity ignore the value
passed to flush and use only the scope value, else the default
(`HEALTHY`/`NORMAL`) — the flush's result-type only influences the
human-readable `AppResult` text. -/
theorem flush_resolution_precedence (c : CustomLoggerState) (elapsedMicros : Int)
    (threadId : Nat) (data : Stack) :
    (Flush c elapsedMicros threadId data).1.AppResultCode =
        (if data.Code ≠ "" then data.Code
         else if c.logDto.AppResultCode ≠ "" then c.logDto.AppResultCode
         else "20000")
    ∧ (Flush c elapsedMicros threadId data).1.AppResultHttpStatus =
        (if data.Status ≠ "" then data.Status
         else if c.logDto.AppResultHttpStatus ≠ "" then c.logDto.AppResultHttpStatus
         else "200")
    ∧ (Flush c elapsedMicros threadId data).1.AppResultType =
        (if c.logDto.AppResultType ≠ "" then c.logDto.AppResultType else HEALTHY)
    ∧ (Flush c elapsedMicros threadId data).1.Severity =
        (if c.logDto.Severity ≠ "" then c.logDto.Severity else NORMAL) := by
  simp only [Flush, clearNonSummaryLogParam]
  split <;> simp

/-- Claim C7: on a scope that recorded no summary tags, `End` still emits
exactly one summary record, and that record carries an empty sequence list
and the default success code `"20000"`. -/
theorem end_without_summaries_emits_one_minimal_record (dto : LogDto)
    (hseq : dto.Sequences = []) (elapsedMicros : Int) (threadId : Nat) :
    (End { logDto := dto, summaryLogAdditionalInfo := [] }
        elapsedMicros threadId 200 "").2.length = 1
    ∧ (End { logDto := dto, summaryLogAdditionalInfo := [] }
        elapsedMicros threadId 200 "").2.map
          (fun r => (r.Sequences, r.AppResultCode, r.LogType))
        = [([], "20000", "summary")] := by
  refine ⟨rfl, ?_⟩
  have h200 : ConvertTTTTT "200" = "20000" := by decide
  simp [End, Flush, clearNonSummaryLogParam, expandResultCode, hseq, h200]

/-- Witness for claim C7 at the concrete fresh scope. -/
theorem end_without_summaries_witness :
    (End { logDto := {}, summaryLogAdditionalInfo := [] } 0 0 200 "").2.length = 1
    ∧ (End { logDto := {}, summaryLogAdditionalInfo := [] } 0 0 200 "").2.map
          (fun r => (r.Sequences, r.AppResultCode, r.LogType))
        = [([], "20000", "summary")] :=
  end_without_summaries_emits_one_minimal_record {} rfl 0 0

/-- Claim C1: calling `End` a second time on an already-ended scope does not
fail at all — the Go guard (`summaryLog = nil`, `c = nil`) only nils local
variables, so the second call runs the whole flush again and silently emits a
second, well-formed summary record (reset identity fields, default codes)
instead of failing loudly. -/
theorem end_called_twice_silently_emits_second_summary :
    (End {} 5 7 200 "").2.length = 1
    ∧ (End ((End {} 5 7 200 "").1) 6 8 200 "").2.length = 1
    ∧ (End ((End {} 5 7 200 "").1) 6 8 200 "").2.map
        (fun r => (r.LogType, r.AppResultCode, r.AppResultHttpStatus))
        = [("summary", "20000", "200")] :=
  ⟨rfl, rfl, rfl⟩

/-! ## Wildcard masking on a top-level array payload (claim C5) -/

/-- Claim C5, code evaluated at the failing input: on the top-level-array
payload `[{"a": [{"c": "secret"}]}]` with the wildcard rule `a.*.c` (full
masking), `cloneAndMask` returns the payload with `"secret"` unmasked.  The
array-payload wildcard path substitutes the element index into the rule and
calls `SetNestedArrayProperty`, whose walk treats the numeric segment as a
map key and returns early (and which would in any case rewrite only the
hardcoded key `"key1"`), so nothing is masked — the claim requires each
element's `"c"` to be masked. -/
theorem wildcard_rule_on_toplevel_array_leaves_field_unmasked :
    ((cloneAndMaskH (fun s => s) st5 (.ref 3)
        [⟨"a.*.c", MaskingType.Full, true⟩]).2.bind
      (readHVal 10 (cloneAndMaskH (fun s => s) st5 (.ref 3)
        [⟨"a.*.c", MaskingType.Full, true⟩]).1)) = some payload5
    ∧ payload5 ≠ payload5Masked := by
  refine ⟨rfl, ?_⟩
  intro h
  simp [payload5, payload5Masked, JArr.ofList, JObj.ofList] at h

/-! ## Detail emission shape (claim C2) -/

theorem newline_mem_renderJValIndent_obj_cons (depth : Nat) (k : String)
    (v : JVal) (tl : JObj) :
    '\n' ∈ (renderJValIndent depth (.obj (.cons k v tl))).data := by
  have hsplit : ∀ s t : String, (s ++ t).data = s.data ++ t.data := fun _ _ => rfl
  rw [renderJValIndent]
  · simp [hsplit]
  · exact fun h => JObj.noConfusion h

set_option maxHeartbeats 2000000 in
/-- Claim C2: every serialized detail record is a multi-line JSON document,
not a single-line one — `toStr` uses `json.MarshalIndent(v, "", "  ")`, and
since the record object always contains at least the `logType` field, the
output always holds a newline.  The second conjunct evaluates a concrete
`Info` emission on an HTTP-scope record. -/
theorem detail_emission_is_multiline_json :
    (∀ dto : LogDto, '\n' ∈ (renderJValIndent 0 (logDtoJVal dto)).data)
    ∧ '\n' ∈ (match Info (fun s => s) [] detailScopeDto
          { Action := "[OUTBOUND]", ActionDescription := "client" }
          (.str "hello") [] "2025-01-01T00:00:00Z" with
        | some t => t.1
        | none => "").data := by
  constructor
  · intro dto
    rw [show logDtoJVal dto = JVal.obj (.cons "logType" (.str dto.LogType)
        (JObj.ofList (logDtoFieldsTail dto))) from rfl]
    exact newline_mem_renderJValIndent_obj_cons 0 _ _ _
  · decide

/-! ## Frame property of `cloneAndMask` (claim C9)

`cloneAndMask` builds its clone in fresh cells (addresses at or above the
original store length `n`) and every write of the masking walkers lands on
such a fresh cell, so the store below `n` — everything reachable from the
caller's payload — is untouched. -/

theorem optionMapM_congr {α β : Type} {f g : α → Option β} :
    ∀ {l : List α}, (∀ a ∈ l, f a = g a) → l.mapM f = l.mapM g := by
  intro l
  induction l with
  | nil => intro _; rfl
  | cons a rest ih =>
    intro h
    simp only [List.mapM_cons, h a (by simp)]
    rw [ih fun x hx => h x (by simp [hx])]

theorem agreesBelow_rfl (n : Nat) (st : Store) : AgreesBelow n st st :=
  fun _ _ => rfl

theorem agreesBelow_trans {n : Nat} {st1 st2 st3 : Store}
    (h1 : AgreesBelow n st1 st2) (h2 : AgreesBelow n st2 st3) :
    AgreesBelow n st1 st3 :=
  fun i hi => (h2 i hi).trans (h1 i hi)

theorem agreesBelow_append (n : Nat) (st ext : Store) (h : n ≤ st.length) :
    AgreesBelow n st (st ++ ext) := by
  intro i hi
  rw [List.getElem?_append]
  simp [Nat.lt_of_lt_of_le hi h]

theorem agreesBelow_set (n : Nat) (st : Store) (a : Nat) (c : HCell)
    (ha : n ≤ a) : AgreesBelow n st (st.set a c) := by
  intro i hi
  exact List.getElem?_set_ne (Nat.ne_of_gt (Nat.lt_of_lt_of_le hi ha))

theorem highClosed_init (st : Store) : HighClosed st.length st := by
  intro i hi c hc
  rw [List.getElem?_eq_none hi] at hc
  cases hc

theorem highClosed_set (n : Nat) (st : Store) (a : Nat) (c : HCell)
    (hhc : HighClosed n st) (hc : cellHighB n c = true) :
    HighClosed n (st.set a c) := by
  intro i hi c' hc'
  by_cases hia : a = i
  · subst hia
    by_cases hlt : a < st.length
    · rw [List.getElem?_set_self hlt] at hc'
      cases hc'
      exact hc
    · rw [List.set_eq_of_length_le (Nat.le_of_not_lt hlt)] at hc'
      exact hhc _ hi c' hc'
  · rw [List.getElem?_set_ne hia] at hc'
    exact hhc _ hi c' hc'

theorem highClosed_append_single (n : Nat) (st : Store) (c : HCell)
    (hhc : HighClosed n st) (hc : cellHighB n c = true) :
    HighClosed n (st ++ [c]) := by
  intro i hi c' hc'
  rw [List.getElem?_append] at hc'
  by_cases hil : i < st.length
  · rw [if_pos hil] at hc'
    exact hhc _ hi c' hc'
  · rw [if_neg hil] at hc'
    rcases Nat.lt_or_ge (i - st.length) 1 with hlt | hge
    · have : i - st.length = 0 := by omega
      rw [this] at hc'
      cases hc'
      exact hc
    · rw [List.getElem?_eq_none (by simpa using hge)] at hc'
      cases hc'

theorem storeStep_rfl {n : Nat} {st : Store} (hhc : HighClosed n st)
    (hlen : n ≤ st.length) : StoreStep n st st :=
  ⟨agreesBelow_rfl n st, hhc, hlen⟩

theorem storeStep_trans {n : Nat} {st1 st2 st3 : Store}
    (h1 : StoreStep n st1 st2) (h2 : StoreStep n st2 st3) :
    StoreStep n st1 st3 :=
  ⟨agreesBelow_trans h1.1 h2.1, h2.2.1, h2.2.2⟩

theorem storeStep_set {n : Nat} {st : Store} (a : Nat) (c : HCell)
    (ha : n ≤ a) (hhc : HighClosed n st) (hlen : n ≤ st.length)
    (hc : cellHighB n c = true) : StoreStep n st (st.set a c) :=
  ⟨agreesBelow_set n st a c ha, highClosed_set n st a c hhc hc,
   by rw [List.length_set]; exact hlen⟩

theorem storeStep_append_single {n : Nat} {st : Store} (c : HCell)
    (hhc : HighClosed n st) (hlen : n ≤ st.length)
    (hc : cellHighB n c = true) : StoreStep n st (st ++ [c]) :=
  ⟨agreesBelow_append n st [c] hlen,
   highClosed_append_single n st c hhc hc,
   by rw [List.length_append]; omega⟩

theorem goMapGet_high (n : Nat) (k : String) :
    ∀ fs : List (String × HVal),
      fs.all (fun kv => refHighB n kv.2) = true →
      refHighB n (goMapGet fs k) = true := by
  intro fs
  induction fs with
  | nil => intro _; rfl
  | cons kv rest ih =>
    intro h
    rw [List.all_cons, Bool.and_eq_true] at h
    obtain ⟨kv1, kv2⟩ := kv
    rw [goMapGet]
    split
    · exact h.1
    · exact ih h.2

theorem setField_all (p : HVal → Bool) (k : String) (v : HVal) :
    ∀ fs : List (String × HVal),
      fs.all (fun kv => p kv.2) = true → p v = true →
      (setField fs k v).all (fun kv => p kv.2) = true := by
  intro fs
  induction fs with
  | nil => intro _ hv; simp [setField, hv]
  | cons kv rest ih =>
    intro h hv
    rw [List.all_cons, Bool.and_eq_true] at h
    obtain ⟨kv1, kv2⟩ := kv
    rw [setField]
    split
    · simp only [List.all_cons, Bool.and_eq_true]
      exact ⟨hv, h.2⟩
    · simp only [List.all_cons, Bool.and_eq_true]
      exact ⟨h.1, ih h.2 hv⟩

theorem readHVal_agreesBelow (n : Nat) (st st' : Store)
    (hag : AgreesBelow n st st')
    (hlow : ∀ i, i < n → ∀ c, st[i]? = some c → cellBelowB n c = true) :
    ∀ fuel v, refBelowB n v = true → readHVal fuel st' v = readHVal fuel st v := by
  intro fuel
  induction fuel with
  | zero => intro v _; cases v <;> rfl
  | succ fuel ih =>
    intro v hv
    cases v with
    | null => rfl
    | str s => rfl
    | num m => rfl
    | bool b => rfl
    | ref a =>
      have ha : a < n := by simpa [refBelowB] using hv
      rw [readHVal, readHVal, hag a ha]
      cases hc : st[a]? with
      | none => rfl
      | some c =>
        cases c with
        | arr es =>
          have hcb : es.all (refBelowB n) = true := hlow a ha _ hc
          rw [List.all_eq_true] at hcb
          simp only
          rw [optionMapM_congr fun e he => ih e (hcb e he)]
        | obj fs =>
          have hcb : fs.all (fun kv => refBelowB n kv.2) = true := hlow a ha _ hc
          rw [List.all_eq_true] at hcb
          simp only
          rw [optionMapM_congr fun kv hkv => by rw [ih kv.2 (hcb kv hkv)]]

theorem setNestedPropertyH_step (hmac : String → String) (mt : MaskingType)
    (n : Nat) :
    ∀ (keys : List String) (st : Store) (root : HVal),
      HighClosed n st → n ≤ st.length → refHighB n root = true →
      StoreStep n st (setNestedPropertyH hmac mt st root keys) := by
  intro keys
  induction keys with
  | nil => intro st root hhc hlen _; exact storeStep_rfl hhc hlen
  | cons key rest ih =>
    intro st root hhc hlen hroot
    cases rest with
    | nil =>
      cases root with
      | ref a =>
        have ha : n ≤ a := by simpa [refHighB] using hroot
        rw [setNestedPropertyH]
        cases hc : st[a]? with
        | none => exact storeStep_rfl hhc hlen
        | some c =>
          cases c with
          | arr es => exact storeStep_rfl hhc hlen
          | obj fs =>
            have hfs : fs.all (fun kv => refHighB n kv.2) = true := hhc a ha _ hc
            dsimp only
            cases hget : goMapGet fs key with
            | str val =>
              exact storeStep_set a _ ha hhc hlen
                (setField_all (refHighB n) key (.str (Masking hmac val mt)) fs hfs rfl)
            | null => exact storeStep_rfl hhc hlen
            | num m => exact storeStep_rfl hhc hlen
            | bool b => exact storeStep_rfl hhc hlen
            | ref a2 => exact storeStep_rfl hhc hlen
      | null => exact storeStep_rfl hhc hlen
      | str s => exact storeStep_rfl hhc hlen
      | num m => exact storeStep_rfl hhc hlen
      | bool b => exact storeStep_rfl hhc hlen
    | cons key2 rest2 =>
      cases root with
      | ref a =>
        have ha : n ≤ a := by simpa [refHighB] using hroot
        rw [setNestedPropertyH]
        case x_2 => exact fun h => List.noConfusion h
        cases hc : st[a]? with
        | none => exact storeStep_rfl hhc hlen
        | some c =>
          cases c with
          | arr es => exact storeStep_rfl hhc hlen
          | obj fs =>
            have hfs : fs.all (fun kv => refHighB n kv.2) = true := hhc a ha _ hc
            dsimp only
            cases hget : goMapGet fs key with
            | ref a2 =>
              have ha2 : refHighB n (.ref a2) = true := hget ▸ goMapGet_high n key fs hfs
              dsimp only
              cases hc2 : st[a2]? with
              | none => exact storeStep_rfl hhc hlen
              | some c2 =>
                cases c2 with
                | arr es2 => exact storeStep_rfl hhc hlen
                | obj fs2 => exact ih st (.ref a2) hhc hlen ha2
            | null => exact storeStep_rfl hhc hlen
            | str s => exact storeStep_rfl hhc hlen
            | num m => exact storeStep_rfl hhc hlen
            | bool b => exact storeStep_rfl hhc hlen
      | null => exact storeStep_rfl hhc hlen
      | str s => exact storeStep_rfl hhc hlen
      | num m => exact storeStep_rfl hhc hlen
      | bool b => exact storeStep_rfl hhc hlen

theorem maskKey1One_step (hmac : String → String) (mt : MaskingType)
    (n : Nat) (st : Store) (v : HVal)
    (hhc : HighClosed n st) (hlen : n ≤ st.length)
    (hv : refHighB n v = true) :
    StoreStep n st (maskKey1One hmac mt st v) := by
  cases v with
  | ref e =>
    have he : n ≤ e := by simpa [refHighB] using hv
    rw [maskKey1One]
    cases hc : st[e]? with
    | none => exact storeStep_rfl hhc hlen
    | some c =>
      cases c with
      | arr es => exact storeStep_rfl hhc hlen
      | obj efs =>
        exact storeStep_set e _ he hhc hlen
          (setField_all (refHighB n) "key1" _ efs (hhc e he _ hc) rfl)
  | null => exact storeStep_rfl hhc hlen
  | str s => exact storeStep_rfl hhc hlen
  | num m => exact storeStep_rfl hhc hlen
  | bool b => exact storeStep_rfl hhc hlen

theorem maskKey1Elems_step (hmac : String → String) (mt : MaskingType)
    (n : Nat) :
    ∀ (elems : List HVal) (st : Store),
      HighClosed n st → n ≤ st.length →
      (∀ v ∈ elems, refHighB n v = true) →
      StoreStep n st (maskKey1Elems hmac mt st elems) := by
  intro elems
  induction elems with
  | nil => intro st hhc hlen _; exact storeStep_rfl hhc hlen
  | cons v rest ih =>
    intro st hhc hlen helems
    rw [maskKey1Elems]
    have hstep := maskKey1One_step hmac mt n st v hhc hlen (helems v (by simp))
    exact storeStep_trans hstep
      (ih _ hstep.2.1 hstep.2.2 fun x hx => helems x (List.mem_cons_of_mem v hx))

theorem setNestedArrayWalk_high (n : Nat) (st : Store)
    (hhc : HighClosed n st) :
    ∀ (keys : List String) (root : HVal) (cur : HVal),
      refHighB n root = true → setNestedArrayWalk st keys root = some cur →
      refHighB n cur = true := by
  intro keys
  induction keys with
  | nil =>
    intro root cur hroot hwalk
    rw [setNestedArrayWalk, Option.some.injEq] at hwalk
    exact hwalk ▸ hroot
  | cons key rest ih =>
    intro root cur hroot hwalk
    cases root with
    | ref a =>
      have ha : n ≤ a := by simpa [refHighB] using hroot
      rw [setNestedArrayWalk] at hwalk
      revert hwalk
      cases hc : st[a]? with
      | none => intro hwalk; cases hwalk
      | some c =>
        cases c with
        | arr es => intro hwalk; cases hwalk
        | obj fs =>
          intro hwalk
          exact ih (goMapGet fs key) cur
            (goMapGet_high n key fs (hhc a ha _ hc)) hwalk
    | null => cases hwalk
    | str s => cases hwalk
    | num m => cases hwalk
    | bool b => cases hwalk

theorem SetNestedArrayPropertyH_step (hmac : String → String) (n : Nat)
    (st : Store) (root : HVal) (path : String) (mt : MaskingType)
    (hhc : HighClosed n st) (hlen : n ≤ st.length)
    (hroot : refHighB n root = true) :
    StoreStep n st (SetNestedArrayPropertyH hmac st root path mt) := by
  rw [SetNestedArrayPropertyH]
  cases hwalk : setNestedArrayWalk st (goSplit path '.').dropLast root with
  | none => exact storeStep_rfl hhc hlen
  | some cur =>
    have hcur := setNestedArrayWalk_high n st hhc _ root cur hroot hwalk
    dsimp only
    cases cur with
    | ref a =>
      have ha : n ≤ a := by simpa [refHighB] using hcur
      dsimp only
      cases hc : st[a]? with
      | none => exact storeStep_rfl hhc hlen
      | some c =>
        cases c with
        | arr es => exact storeStep_rfl hhc hlen
        | obj fs =>
          dsimp only
          cases hget : goMapGet fs ((goSplit path '.').getLastD "") with
          | ref b =>
            have hb : n ≤ b := by
              have := goMapGet_high n ((goSplit path '.').getLastD "") fs (hhc a ha _ hc)
              rw [hget] at this
              simpa [refHighB] using this
            dsimp only
            cases hc2 : st[b]? with
            | none => exact storeStep_rfl hhc hlen
            | some c2 =>
              cases c2 with
              | obj fs2 => exact storeStep_rfl hhc hlen
              | arr elems =>
                refine maskKey1Elems_step hmac mt n elems st hhc hlen ?_
                intro v hv
                have := hhc b hb _ hc2
                rw [cellHighB, List.all_eq_true] at this
                exact this v hv
          | null => exact storeStep_rfl hhc hlen
          | str s => exact storeStep_rfl hhc hlen
          | num m => exact storeStep_rfl hhc hlen
          | bool b => exact storeStep_rfl hhc hlen
    | null => exact storeStep_rfl hhc hlen
    | str s => exact storeStep_rfl hhc hlen
    | num m => exact storeStep_rfl hhc hlen
    | bool b => exact storeStep_rfl hhc hlen

theorem getObjectWalk_high (n : Nat) (st : Store) (hhc : HighClosed n st) :
    ∀ (keys : List String) (root : HVal), refHighB n root = true →
      refHighB n (getObjectWalk st keys root) = true := by
  intro keys
  induction keys with
  | nil => intro root hroot; exact hroot
  | cons key rest ih =>
    intro root hroot
    cases root with
    | ref a =>
      have ha : n ≤ a := by simpa [refHighB] using hroot
      rw [getObjectWalk]
      cases hc : st[a]? with
      | none => rfl
      | some c =>
        cases c with
        | arr es => rfl
        | obj fs =>
          have hnext := goMapGet_high n key fs (hhc a ha _ hc)
          dsimp only
          cases hget : goMapGet fs key with
          | null => rfl
          | str s => exact ih _ (hget ▸ hnext)
          | num m => exact ih _ (hget ▸ hnext)
          | bool b => exact ih _ (hget ▸ hnext)
          | ref a2 => exact ih _ (hget ▸ hnext)
    | null => rfl
    | str s => rfl
    | num m => rfl
    | bool b => rfl

theorem getObjectByStringKeysH_high (n : Nat) (st : Store)
    (hhc : HighClosed n st) (obj : HVal) (path : String)
    (hobj : refHighB n obj = true) :
    ∀ v ∈ GetObjectByStringKeysH st obj path, refHighB n v = true := by
  intro v hv
  rw [GetObjectByStringKeysH] at hv
  revert hv
  have hwalk := getObjectWalk_high n st hhc (goSplit path '.') obj hobj
  cases hcur : getObjectWalk st (goSplit path '.') obj with
  | ref a =>
    have ha : n ≤ a := by
      rw [hcur] at hwalk
      simpa [refHighB] using hwalk
    dsimp only
    cases hc : st[a]? with
    | none => intro hv; cases hv
    | some c =>
      cases c with
      | obj fs => intro hv; cases hv
      | arr es =>
        intro hv
        have := hhc a ha _ hc
        rw [cellHighB, List.all_eq_true] at this
        exact this v hv
  | null => intro hv; cases hv
  | str s => intro hv; cases hv
  | num m => intro hv; cases hv
  | bool b => intro hv; cases hv

theorem maskSuffixOne_step (hmac : String → String) (mt : MaskingType)
    (suffix : String) (n : Nat) (st : Store) (v : HVal)
    (hhc : HighClosed n st) (hlen : n ≤ st.length)
    (hv : refHighB n v = true) :
    StoreStep n st (maskSuffixOne hmac mt suffix st v) := by
  cases v with
  | ref e =>
    have he : n ≤ e := by simpa [refHighB] using hv
    rw [maskSuffixOne]
    cases hc : st[e]? with
    | none => exact storeStep_rfl hhc hlen
    | some c =>
      cases c with
      | arr es => exact storeStep_rfl hhc hlen
      | obj efs =>
        exact setNestedPropertyH_step hmac mt n (goSplit suffix '.') st
          (.ref e) hhc hlen (by simpa [refHighB] using he)
  | null => exact storeStep_rfl hhc hlen
  | str s => exact storeStep_rfl hhc hlen
  | num m => exact storeStep_rfl hhc hlen
  | bool b => exact storeStep_rfl hhc hlen

theorem maskSuffixElems_step (hmac : String → String) (mt : MaskingType)
    (suffix : String) (n : Nat) :
    ∀ (elems : List HVal) (st : Store),
      HighClosed n st → n ≤ st.length →
      (∀ v ∈ elems, refHighB n v = true) →
      StoreStep n st (maskSuffixElems hmac mt suffix st elems) := by
  intro elems
  induction elems with
  | nil => intro st hhc hlen _; exact storeStep_rfl hhc hlen
  | cons v rest ih =>
    intro st hhc hlen helems
    rw [maskSuffixElems]
    have hstep := maskSuffixOne_step hmac mt suffix n st v hhc hlen
      (helems v (by simp))
    exact storeStep_trans hstep
      (ih _ hstep.2.1 hstep.2.2 fun x hx => helems x (List.mem_cons_of_mem v hx))

theorem foldl_storeStep {α : Type} (n : Nat) (f : Store → α → Store) :
    ∀ (l : List α),
      (∀ st x, x ∈ l → HighClosed n st → n ≤ st.length → StoreStep n st (f st x)) →
      ∀ st : Store, HighClosed n st → n ≤ st.length →
        StoreStep n st (l.foldl f st) := by
  intro l
  induction l with
  | nil => intro _ st hhc hlen; exact storeStep_rfl hhc hlen
  | cons x rest ih =>
    intro hf st hhc hlen
    rw [List.foldl_cons]
    have hstep := hf st x (by simp) hhc hlen
    exact storeStep_trans hstep
      (ih (fun st' y hy => hf st' y (List.mem_cons_of_mem x hy)) _ hstep.2.1 hstep.2.2)

theorem applyMapOption_step (hmac : String → String) (n : Nat) (st : Store)
    (cloneRoot : HVal) (opt : MaskingOptionDto)
    (hhc : HighClosed n st) (hlen : n ≤ st.length)
    (hroot : refHighB n cloneRoot = true) :
    StoreStep n st (applyMapOption hmac st cloneRoot opt) := by
  rw [applyMapOption]
  split
  · exact maskSuffixElems_step hmac opt.MaskingType _ n _ st hhc hlen
      (getObjectByStringKeysH_high n st hhc cloneRoot _ hroot)
  · exact setNestedPropertyH_step hmac opt.MaskingType n _ st cloneRoot hhc hlen hroot

theorem applyArrOption_step (hmac : String → String) (n : Nat) (st : Store)
    (elem : HVal) (opt : MaskingOptionDto)
    (hhc : HighClosed n st) (hlen : n ≤ st.length)
    (helem : refHighB n elem = true) :
    StoreStep n st (applyArrOption hmac st elem opt) := by
  rw [applyArrOption]
  split
  · exact foldl_storeStep n _ _
      (fun st' i _ hhc' hlen' =>
        SetNestedArrayPropertyH_step hmac n st' elem _ opt.MaskingType hhc' hlen' helem)
      st hhc hlen
  · exact setNestedPropertyH_step hmac opt.MaskingType n _ st elem hhc hlen helem

mutual
theorem unmarshalJ_spec (n : Nat) (j : JVal) (st : Store)
    (hlen : n ≤ st.length) (hhc : HighClosed n st) :
    StoreStep n st (unmarshalJ j st).1 ∧ refHighB n (unmarshalJ j st).2 = true :=
  match j with
  | .null => ⟨storeStep_rfl hhc hlen, rfl⟩
  | .str _ => ⟨storeStep_rfl hhc hlen, rfl⟩
  | .num _ => ⟨storeStep_rfl hhc hlen, rfl⟩
  | .bool _ => ⟨storeStep_rfl hhc hlen, rfl⟩
  | .arr es => by
    have h := unmarshalArr_spec n es st hlen hhc
    rw [unmarshalJ]
    constructor
    · refine storeStep_trans h.1 (storeStep_append_single _ h.1.2.1 h.1.2.2 ?_)
      rw [cellHighB, List.all_eq_true]
      exact h.2
    · simpa [refHighB] using h.1.2.2
  | .obj fs => by
    have h := unmarshalObj_spec n fs st hlen hhc
    rw [unmarshalJ]
    constructor
    · refine storeStep_trans h.1 (storeStep_append_single _ h.1.2.1 h.1.2.2 ?_)
      rw [cellHighB, List.all_eq_true]
      exact h.2
    · simpa [refHighB] using h.1.2.2

theorem unmarshalArr_spec (n : Nat) (es : JArr) (st : Store)
    (hlen : n ≤ st.length) (hhc : HighClosed n st) :
    StoreStep n st (unmarshalArr es st).1
      ∧ ∀ v ∈ (unmarshalArr es st).2, refHighB n v = true :=
  match es with
  | .nil => ⟨storeStep_rfl hhc hlen, by intro v hv; cases hv⟩
  | .cons e rest => by
    have h1 := unmarshalJ_spec n e st hlen hhc
    have h2 := unmarshalArr_spec n rest (unmarshalJ e st).1 h1.1.2.2 h1.1.2.1
    rw [unmarshalArr]
    constructor
    · exact storeStep_trans h1.1 h2.1
    · intro v hv
      rcases List.mem_cons.mp hv with rfl | hv2
      · exact h1.2
      · exact h2.2 v hv2

theorem unmarshalObj_spec (n : Nat) (fs : JObj) (st : Store)
    (hlen : n ≤ st.length) (hhc : HighClosed n st) :
    StoreStep n st (unmarshalObj fs st).1
      ∧ ∀ kv ∈ (unmarshalObj fs st).2, refHighB n kv.2 = true :=
  match fs with
  | .nil => ⟨storeStep_rfl hhc hlen, by intro kv hkv; cases hkv⟩
  | .cons k v rest => by
    have h1 := unmarshalJ_spec n v st hlen hhc
    have h2 := unmarshalObj_spec n rest (unmarshalJ v st).1 h1.1.2.2 h1.1.2.1
    rw [unmarshalObj]
    constructor
    · exact storeStep_trans h1.1 h2.1
    · intro kv hkv
      rcases List.mem_cons.mp hkv with rfl | hkv2
      · exact h1.2
      · exact h2.2 kv hkv2
end

theorem unmarshalMapSlice_spec (n : Nat) :
    ∀ (es : List JVal) (st : Store), n ≤ st.length → HighClosed n st →
      ∀ st' clones, unmarshalMapSlice es st = some (st', clones) →
        StoreStep n st st' ∧ ∀ v ∈ clones, refHighB n v = true := by
  intro es
  induction es with
  | nil =>
    intro st hlen hhc st' clones h
    rw [unmarshalMapSlice, Option.some.injEq] at h
    cases h
    exact ⟨storeStep_rfl hhc hlen, by intro v hv; cases hv⟩
  | cons e rest ih =>
    intro st hlen hhc st' clones h
    cases e with
    | obj fs =>
      rw [unmarshalMapSlice] at h
      have h1 := unmarshalJ_spec n (.obj fs) st hlen hhc
      rcases Option.map_eq_some'.mp h with ⟨⟨st2, clones2⟩, hrec, heq⟩
      cases heq
      have h2 := ih _ h1.1.2.2 h1.1.2.1 st2 clones2 hrec
      refine ⟨storeStep_trans h1.1 h2.1, ?_⟩
      intro v hv
      rcases List.mem_cons.mp hv with rfl | hv2
      · exact h1.2
      · exact h2.2 v hv2
    | null =>
      rw [unmarshalMapSlice] at h
      rcases Option.map_eq_some'.mp h with ⟨⟨st2, clones2⟩, hrec, heq⟩
      cases heq
      have h2 := ih st hlen hhc st2 clones2 hrec
      refine ⟨h2.1, ?_⟩
      intro v hv
      rcases List.mem_cons.mp hv with rfl | hv2
      · rfl
      · exact h2.2 v hv2
    | str s =>
      rw [show unmarshalMapSlice (JVal.str s :: rest) st = none from rfl] at h
      cases h
    | num m =>
      rw [show unmarshalMapSlice (JVal.num m :: rest) st = none from rfl] at h
      cases h
    | bool b =>
      rw [show unmarshalMapSlice (JVal.bool b :: rest) st = none from rfl] at h
      cases h
    | arr es2 =>
      rw [show unmarshalMapSlice (JVal.arr es2 :: rest) st = none from rfl] at h
      cases h

theorem cloneAndMaskH_agreesBelow (hmac : String → String) (st : Store)
    (data : HVal) (options : List MaskingOptionDto) :
    AgreesBelow st.length st (cloneAndMaskH hmac st data options).1 := by
  have hhc0 := highClosed_init st
  have hlen0 : st.length ≤ st.length := Nat.le_refl _
  rw [cloneAndMaskH]
  split
  · exact agreesBelow_rfl _ st
  · cases hread : readHVal (st.length + 1) st data with
    | none => exact agreesBelow_rfl _ st
    | some raw =>
      dsimp only
      cases data with
      | null => exact agreesBelow_rfl _ st
      | str s => exact agreesBelow_rfl _ st
      | num m => exact agreesBelow_rfl _ st
      | bool b => exact agreesBelow_rfl _ st
      | ref a =>
        dsimp only
        cases hc : st[a]? with
        | none => cases raw <;> exact agreesBelow_rfl _ st
        | some c =>
          cases c with
          | arr cells =>
            cases raw with
            | arr es =>
              dsimp only
              cases hum : unmarshalMapSlice es.toList st with
              | none => exact agreesBelow_rfl _ st
              | some r =>
                obtain ⟨st1, clones⟩ := r
                have hums := unmarshalMapSlice_spec st.length es.toList st
                  hlen0 hhc0 st1 clones hum
                have hfold := foldl_storeStep st.length
                  (fun acc elem =>
                    options.foldl (fun acc2 opt => applyArrOption hmac acc2 elem opt) acc)
                  clones
                  (fun st' elem hmem hhc' hlen' =>
                    foldl_storeStep st.length
                      (fun acc2 opt => applyArrOption hmac acc2 elem opt)
                      options
                      (fun st'' opt _ hhc'' hlen'' =>
                        applyArrOption_step hmac st.length st'' elem opt hhc'' hlen''
                          (hums.2 elem hmem))
                      st' hhc' hlen')
                  st1 hums.1.2.1 hums.1.2.2
                have hchain := storeStep_trans hums.1 hfold
                exact agreesBelow_trans hchain.1
                  (agreesBelow_append st.length _ _ hchain.2.2)
            | null => exact agreesBelow_rfl _ st
            | str s => exact agreesBelow_rfl _ st
            | num m => exact agreesBelow_rfl _ st
            | bool b => exact agreesBelow_rfl _ st
            | obj fs => exact agreesBelow_rfl _ st
          | obj cellfs =>
            cases raw with
            | obj fs =>
              dsimp only
              have hj := unmarshalJ_spec st.length (.obj fs) st hlen0 hhc0
              have hfold := foldl_storeStep st.length
                (fun acc opt => applyMapOption hmac acc (unmarshalJ (.obj fs) st).2 opt)
                options
                (fun st' opt _ hhc' hlen' =>
                  applyMapOption_step hmac st.length st' _ opt hhc' hlen' hj.2)
                (unmarshalJ (.obj fs) st).1 hj.1.2.1 hj.1.2.2
              exact (storeStep_trans hj.1 hfold).1
            | null => exact agreesBelow_rfl _ st
            | str s => exact agreesBelow_rfl _ st
            | num m => exact agreesBelow_rfl _ st
            | bool b => exact agreesBelow_rfl _ st
            | arr es => exact agreesBelow_rfl _ st

/-- Claim C9: `cloneAndMask` never mutates its input payload.  For every
well-formed store, payload reference and rule list, the deep value of the
payload read back after the call (at any fuel) equals its value before the
call: the clone is unmarshalled into fresh cells, and every write of the
masking walkers lands on a fresh cell. -/
theorem cloneAndMask_preserves_input (hmac : String → String) (st : Store)
    (data : HVal) (options : List MaskingOptionDto)
    (hwf : WfStore st) (hdata : refBelowB st.length data = true) (fuel : Nat) :
    readHVal fuel (cloneAndMaskH hmac st data options).1 data
      = readHVal fuel st data :=
  readHVal_agreesBelow st.length st _
    (cloneAndMaskH_agreesBelow hmac st data options)
    (fun _ _ c hc => hwf c (by
      obtain ⟨h1, rfl⟩ := List.getElem?_eq_some.mp hc
      exact List.getElem_mem ..))
    fuel data hdata

/-- Witness for claim C9: masking `{"name": "bob"}` with a `full` rule on
`name` leaves the original heap object unchanged. -/
theorem cloneAndMask_preserves_input_witness :
    readHVal 2 (cloneAndMaskH (fun s => s) st7 (.ref 0)
        [⟨"name", MaskingType.Full, false⟩]).1 (.ref 0)
      = readHVal 2 st7 (.ref 0) :=
  cloneAndMask_preserves_input (fun s => s) st7 (.ref 0)
    [⟨"name", MaskingType.Full, false⟩]
    (fun c hc => by
      simp only [st7, List.mem_singleton] at hc
      subst hc
      decide)
    (by decide) 2

end UserProductOrder
